import Mathlib

/-!
Verification of the medical-receipt summarisation scripts
(`summarize_medical_expense.py` and `summarize_medical_expense_batch.py`).

Strings are modelled as `List Char`; Python string operations that the
scripts use (`replace` of a single character by the empty string, `strip`,
`endswith`, slicing, `split`, substring search) are embedded as executable
functions on `List Char` below, each one translated from the corresponding
Python semantics.
-/

set_option maxRecDepth 4000

namespace Med

/-- The "unknown" sentinel `不明` used by both scripts. -/
def UNKNOWN : List Char := "不明".data

/-- The "error" sentinel `エラー` used by both scripts. -/
def ERRVAL : List Char := "エラー".data

/-- Characters stripped by Python `str.strip()` with no argument (the
Unicode whitespace characters recognised by `str.isspace`). -/
def pyWhitespaceChars : List Char :=
  [' ', '\t', '\n', '\r', '\x0b', '\x0c',
   '\x1c', '\x1d', '\x1e', '\x1f', '\x85', '\xa0',
   ' ', ' ', ' ', ' ', ' ', ' ', ' ',
   ' ', ' ', ' ', ' ', ' ',
   ' ', ' ', ' ', ' ', '　']

/-- Whether a character is Python whitespace (for `str.strip`). -/
def pyIsWs (c : Char) : Bool := pyWhitespaceChars.contains c

/-- Python `str.lstrip()`. -/
def lstrip (s : List Char) : List Char := s.dropWhile pyIsWs

/-- Python `str.rstrip()`. -/
def rstrip (s : List Char) : List Char := (s.reverse.dropWhile pyIsWs).reverse

/-- Python `str.strip()`. -/
def pyStrip (s : List Char) : List Char := rstrip (lstrip s)

/-- The space-removal stage of `normalize_name`:
`name.replace("　", "").replace(" ", "")`.  Both replaced strings are a
single character, so the two `replace` calls remove every occurrence of
the full-width and half-width space characters. -/
def spaceFilter (s : List Char) : List Char :=
  s.filter (fun c => !(c == '　' || c == ' '))

/-- The honorific list of `normalize_name`:
`["さん", "様", "殿", "氏", "先生"]`, in the source order. -/
def honorifics : List (List Char) :=
  ["さん".data, "様".data, "殿".data, "氏".data, "先生".data]

/-- One iteration of the honorific loop of `normalize_name`:
`if normalized.endswith(h): normalized = normalized[:-len(h)]`. -/
def stripOne (acc : List Char) (h : List Char) : List Char :=
  if h.isSuffixOf acc then acc.take (acc.length - h.length) else acc

/-- The honorific loop of `normalize_name`.  Note that the Python loop has
no `break`: every honorific in the list is tried once, in order, on the
current value of `normalized`. -/
def stripHonorifics (s : List Char) : List Char :=
  honorifics.foldl stripOne s

/-- `normalize_name` from both scripts (lines 135-157 / 234-256):
empty input returns `不明`; otherwise spaces are removed, the result is
stripped, and the honorific loop runs. -/
def normalize_name (name : List Char) : List Char :=
  if name = [] then UNKNOWN
  else stripHonorifics (pyStrip (spaceFilter name))

/-- Index of the first occurrence of `pat` in `s` (the semantics of
`re.search` for a literal pattern, of `str.find`, and of the scan used by
`str.replace` and `str.split`).  `none` when `pat` does not occur. -/
def findSubstr (pat : List Char) : List Char → Option Nat
  | [] => if pat.isPrefixOf ([] : List Char) then some 0 else none
  | c :: rest =>
    if pat.isPrefixOf (c :: rest) then some 0
    else (findSubstr pat rest).map (· + 1)

theorem findSubstr_isPre {pat s : List Char} {i : Nat}
    (h : findSubstr pat s = some i) : pat.isPrefixOf (s.drop i) = true := by
  induction s generalizing i with
  | nil =>
    simp only [findSubstr] at h
    split at h
    · cases h
      simpa using ‹pat.isPrefixOf ([] : List Char) = true›
    · simp at h
  | cons c rest ih =>
    simp only [findSubstr] at h
    split at h
    · cases h
      simpa using ‹pat.isPrefixOf (c :: rest) = true›
    · cases hf : findSubstr pat rest with
      | none => simp [hf] at h
      | some j =>
        simp only [hf, Option.map_some'] at h
        cases h
        simpa using ih hf

theorem findSubstr_le_length {pat s : List Char} {i : Nat}
    (hpat : pat ≠ []) (h : findSubstr pat s = some i) : i + pat.length ≤ s.length := by
  have hp := findSubstr_isPre h
  have hpre := List.isPrefixOf_iff_prefix.mp hp
  have hlen : pat.length ≤ (s.drop i).length := hpre.length_le
  have hi : i ≤ s.length := by
    by_contra hgt
    push_neg at hgt
    have : s.drop i = [] := List.drop_eq_nil_of_le (Nat.le_of_lt hgt)
    rw [this] at hpre
    exact hpat (List.prefix_nil.mp hpre)
  simp only [List.length_drop] at hlen
  omega

/-- Fuelled worker for `pyReplace`; the fuel is an upper bound on the
length of the string still to scan, so the base case is unreachable for
the fuel the wrapper supplies. -/
def pyReplaceGo (pat rep : List Char) : Nat → List Char → List Char
  | 0, s => s
  | fuel + 1, s =>
    match findSubstr pat s with
    | none => s
    | some i => s.take i ++ rep ++ pyReplaceGo pat rep fuel (s.drop (i + pat.length))

/-- Python `str.replace(pat, rep)` for a non-empty `pat`: replaces the
non-overlapping occurrences of `pat` left to right. -/
def pyReplace (pat rep : List Char) (s : List Char) : List Char :=
  if pat = [] then s else pyReplaceGo pat rep s.length s

/-- Fuelled worker for `pySplit`. -/
def pySplitGo (pat : List Char) : Nat → List Char → List (List Char)
  | 0, s => [s]
  | fuel + 1, s =>
    match findSubstr pat s with
    | none => [s]
    | some i => s.take i :: pySplitGo pat fuel (s.drop (i + pat.length))

/-- Python `str.split(pat)` for a non-empty `pat`. -/
def pySplit (pat : List Char) (s : List Char) : List (List Char) :=
  if pat = [] then [s] else pySplitGo pat s.length s

/-- Python `key.split("_", 1)` followed by the 2-tuple unpacking used in
`process_receipts_in_folder`: the part before the first underscore and
everything after it.  (When no underscore occurs the Python unpacking
would raise; that case is unreachable because every grouping key is built
with `f"{hospital}_{patient}"`, and the model returns `(k, [])` there.) -/
def splitFirstUnderscore : List Char → List Char × List Char
  | [] => ([], [])
  | c :: rest =>
    if c = '_' then ([], rest)
    else
      let p := splitFirstUnderscore rest
      (c :: p.1, p.2)

/-! ## Data model: receipt items and consolidated groups -/

/-- An amount after the numeric-conversion pass (lines 293-301 of the
batch script): either a Python `int` or the original text kept when
`int(...)` failed.  (Python would also admit `float` amounts when the
model returns a JSON number with a fraction; floating point is outside
this embedding, and no claim depends on it.) -/
inductive Amount where
  | int (n : Int)
  | text (s : List Char)
deriving DecidableEq, Repr

/-- One entry of `individual_results` after amount conversion. -/
structure ReceiptItem where
  filename : List Char
  patient_name : List Char
  hospital_name : List Char
  amount : Amount
deriving DecidableEq, Repr

/-- The grouping key `f"{result['hospital_name']}_{result['patient_name']}"`. -/
def keyOf (it : ReceiptItem) : List Char :=
  it.hospital_name ++ '_' :: it.patient_name

/-- Decidable test used for membership in a group. -/
def hasKey (k : List Char) (it : ReceiptItem) : Bool := keyOf it == k

/-- The distinct grouping keys in first-appearance order — the iteration
order of the Python `defaultdict` (dict insertion order). -/
def orderedKeys : List ReceiptItem → List (List Char)
  | [] => []
  | it :: rest => keyOf it :: (orderedKeys rest).filter (fun k => !(k == keyOf it))

/-- One consolidated output row. -/
structure Group where
  hospital_name : List Char
  patient_name : List Char
  total_amount : Int
  receipt_count : Nat
  receipts_with_amount : Nat
  filenames : List (List Char)
deriving DecidableEq, Repr

/-- One step of the per-group totalling loop:
`if isinstance(receipt["amount"], (int, float)): total += ...; count += 1`. -/
def amtStep (acc : Int × Nat) (r : ReceiptItem) : Int × Nat :=
  match r.amount with
  | .int n => (acc.1 + n, acc.2 + 1)
  | .text _ => acc

/-- Building one consolidated row from a key and its member list
(lines 314-342 of the batch script). -/
def mkGroup (k : List Char) (receipts : List ReceiptItem) : Group :=
  let hp := splitFirstUnderscore k
  let tc := receipts.foldl amtStep ((0 : Int), (0 : Nat))
  ⟨hp.1, hp.2, tc.1, receipts.length, tc.2, receipts.map (·.filename)⟩

/-- The aggregation pass of `process_receipts_in_folder`: group
`individual_results` by the underscore-joined key and consolidate each
group. -/
def process_group_results (items : List ReceiptItem) : List Group :=
  (orderedKeys items).map (fun k => mkGroup k (items.filter (hasKey k)))

/-- Whether an item's amount is counted by `isinstance(amount, (int, float))`. -/
def isIntAmount (it : ReceiptItem) : Bool :=
  match it.amount with
  | .int _ => true
  | .text _ => false

/-- The integer amount of an item, when it has one. -/
def amountInt (it : ReceiptItem) : Option Int :=
  match it.amount with
  | .int n => some n
  | .text _ => none

/-! ## Amount conversion -/

/-- CPython `int(s)` on an ASCII decimal string: optional sign followed by
a non-empty digit string.  (Real `int()` additionally accepts surrounding
whitespace — already removed by the preceding `strip()` here — plus digit
grouping underscores and non-ASCII decimal digits; no claim depends on
those inputs.) -/
def pyIntParse (s : List Char) : Option Int :=
  match s with
  | '-' :: rest =>
    if rest ≠ [] ∧ rest.all (·.isDigit) then
      some (-(rest.foldl (fun a c => a * 10 + (c.toNat - 48)) 0 : Nat))
    else none
  | '+' :: rest =>
    if rest ≠ [] ∧ rest.all (·.isDigit) then
      some ((rest.foldl (fun a c => a * 10 + (c.toNat - 48)) 0 : Nat))
    else none
  | _ =>
    if s ≠ [] ∧ s.all (·.isDigit) then
      some ((s.foldl (fun a c => a * 10 + (c.toNat - 48)) 0 : Nat))
    else none

/-- The amount-conversion pass applied to a textual amount (lines 294-301):
`str(amount).replace(",", "").replace("円", "").replace(" ", "").strip()`
then `int(...)`, keeping the original text when the conversion fails.
The three replaced strings are single characters, so the replaces remove
those characters everywhere. -/
def convert_amount (s : List Char) : Amount :=
  let cleaned := pyStrip (s.filter (fun c => !(c == ',' || c == '円' || c == ' ')))
  match pyIntParse cleaned with
  | some n => .int n
  | none => .text s

/-! ## Response parser

`json.loads` is Python standard library, external to the repository; it is
modelled as an explicit parameter `jd : List Char → JDecode` describing
what decoding the candidate payload yields.  Everything the scripts do
around it is embedded concretely. -/

/-- Decidable equality for `Except`, used to evaluate the embedding on
concrete inputs. -/
instance {ε α : Type} [DecidableEq ε] [DecidableEq α] : DecidableEq (Except ε α) := fun x y =>
  match x, y with
  | .ok a, .ok b =>
    if h : a = b then .isTrue (by rw [h]) else .isFalse (by intro he; cases he; exact h rfl)
  | .ok _, .error _ => .isFalse (by intro h; cases h)
  | .error _, .ok _ => .isFalse (by intro h; cases h)
  | .error e, .error f =>
    if h : e = f then .isTrue (by rw [h]) else .isFalse (by intro he; cases he; exact h rfl)

/-- A JSON value as seen by the scripts after `json.loads`.  Only the
distinctions the code can observe are kept: a string; a falsy non-string
value (`null`, `false`, `0`, empty containers — for which Python
`normalize_name`'s `if not name` branch fires); and a truthy non-string
value (for which `name.replace(...)` raises `AttributeError`). -/
inductive JVal where
  | str (s : List Char)
  | falsy
  | truthyNonStr
deriving DecidableEq, Repr

/-- The three fields `data.get(...)` can find in a decoded JSON object. -/
structure JObj where
  patient : Option JVal
  hospital : Option JVal
  amount : Option JVal
deriving DecidableEq, Repr

/-- Outcome of `json.loads` on the candidate payload: a JSON object, a
non-object JSON value (`data.get` then raises `AttributeError`), or a
`json.JSONDecodeError`. -/
inductive JDecode where
  | obj (o : JObj)
  | nonObjValue
  | decodeError
deriving DecidableEq, Repr

/-- The three extracted fields of a parsed response (the `amount` is the
raw JSON value or label-search text; numeric conversion happens later). -/
structure Fields where
  patient_name : List Char
  hospital_name : List Char
  amount : JVal
deriving DecidableEq, Repr

def patientLabel : List Char := "患者氏名:".data
def hospitalLabel : List Char := "医療機関名:".data
def amountLabel : List Char := "支払った医療費の金額:".data

/-- The opening marker of the regex ```` r"```json\n(.*?)\n```" ````. -/
def jsonOpenMarker : List Char := "```json\n".data

/-- The closing marker of the fenced-block regex. -/
def jsonCloseMarker : List Char := "\n```".data

/-- `re.search(r"```json\n(.*?)\n```", content, re.DOTALL)`: the leftmost
match starts at the first occurrence of the opening marker, and the lazy
group ends at the first following occurrence of the closing marker. -/
def extractJsonBlock (content : List Char) : Option (List Char) :=
  match findSubstr jsonOpenMarker content with
  | none => none
  | some i =>
    let rest := content.drop (i + jsonOpenMarker.length)
    match findSubstr jsonCloseMarker rest with
    | none => none
    | some j => some (rest.take j)

/-- The fallback extraction of one labelled field:
`content.split("<label>:")[1].split("\n")[0].strip()` guarded by
`"<label>:" in content`, with `不明` when the label is absent. -/
def labelFieldRaw (label content : List Char) : List Char :=
  if (findSubstr label content).isSome then
    pyStrip ((((pySplit label content).get? 1).getD []).takeWhile (fun c => !(c == '\n')))
  else UNKNOWN

/-- The fallback branch (`except json.JSONDecodeError`) of the parser:
label search for each field, then `normalize_name` on the two names; the
amount text is kept as found. -/
def fallbackFields (content : List Char) : Fields :=
  ⟨normalize_name (labelFieldRaw patientLabel content),
   normalize_name (labelFieldRaw hospitalLabel content),
   .str (labelFieldRaw amountLabel content)⟩

/-- `normalize_name` applied to a value of unknown Python type, as in
`normalize_name(data.get("患者氏名", "不明"))`: strings are normalised,
falsy values return `不明` (the `if not name` branch), truthy non-strings
raise. -/
def normalizeJ : JVal → Except Unit (List Char)
  | .str s => .ok (normalize_name s)
  | .falsy => .ok UNKNOWN
  | .truthyNonStr => .error ()

/-- The shared decoding logic of `parse_api_response` (batch script,
lines 183-223) and `extract_info_from_image` (single script, lines
90-125): pick the candidate payload, decode it, build the fields on
success, fall back to label search on `json.JSONDecodeError`.  A returned
`.error` is a raised Python exception that this inner logic does not
catch. -/
def parseCore (jd : List Char → JDecode) (content : List Char) : Except Unit Fields :=
  let payload := (extractJsonBlock content).getD content
  match jd payload with
  | .obj o => do
    let p ← normalizeJ (o.patient.getD (.str UNKNOWN))
    let h ← normalizeJ (o.hospital.getD (.str UNKNOWN))
    pure ⟨p, h, o.amount.getD (.str UNKNOWN)⟩
  | .nonObjValue => .error ()
  | .decodeError => .ok (fallbackFields content)

/-- One entry of the batch script's `individual_results` before amount
conversion. -/
structure RawItem where
  filename : List Char
  patient_name : List Char
  hospital_name : List Char
  amount : JVal
deriving DecidableEq, Repr

/-- The error-sentinel item (`"エラー"` in all three fields). -/
def errRaw (fn : List Char) : RawItem := ⟨fn, ERRVAL, ERRVAL, .str ERRVAL⟩

/-- `parse_api_response` of the batch script: the whole body sits under
`try: ... except Exception:` which converts any raised error into the
error-sentinel item (lines 225-232). -/
def parse_api_response (jd : List Char → JDecode) (content fn : List Char) : RawItem :=
  match parseCore jd content with
  | .ok f => ⟨fn, f.patient_name, f.hospital_name, f.amount⟩
  | .error _ => errRaw fn

/-- `extract_info_from_image` of the single script, from the point where
the response text is available.  Its `try` has only
`except requests.exceptions.RequestException` (line 127), so a transport
error yields the error-sentinel fields but an error raised while decoding
propagates to the caller. -/
def extract_info_single (net : Except Unit (List Char)) (jd : List Char → JDecode) :
    Except Unit Fields :=
  match net with
  | .error _ => .ok ⟨ERRVAL, ERRVAL, .str ERRVAL⟩
  | .ok content => parseCore jd content

/-! ## Spec-side parser definitions (for claim C6)

`claimLabelField`/`claimFallback` transcribe claim C6's fallback wording
as stated: the field value is the trimmed substring from after the label
up to the next line break, with no further processing.
`specLabelField`/`specFallback` are the amended wording: the raw value
stops at the next occurrence of the same label (Python `split`
semantics), and the two name fields then pass through the normalizer. -/

/-- Modelled from the claim's words: trimmed substring after the first
`<label>:` up to the next line break. -/
def claimLabelField (label content : List Char) : List Char :=
  match findSubstr label content with
  | none => UNKNOWN
  | some i => pyStrip ((content.drop (i + label.length)).takeWhile (fun c => !(c == '\n')))

/-- Modelled from the claim's words: the fallback fields as claim C6
states them (no normalizer pass on the fallback values). -/
def claimFallback (content : List Char) : Fields :=
  ⟨claimLabelField patientLabel content,
   claimLabelField hospitalLabel content,
   .str (claimLabelField amountLabel content)⟩

/-- The amended fallback field: text between the first occurrence of the
label and the next occurrence of the same label (or the end), truncated
at the first line break, trimmed. -/
def specLabelField (label content : List Char) : List Char :=
  match findSubstr label content with
  | none => UNKNOWN
  | some i =>
    let rest := content.drop (i + label.length)
    let seg := match findSubstr label rest with
      | none => rest
      | some j => rest.take j
    pyStrip (seg.takeWhile (fun c => !(c == '\n')))

/-- The amended fallback triple: name fields pass through the normalizer,
the amount text is kept raw. -/
def specFallback (content : List Char) : Fields :=
  ⟨normalize_name (specLabelField patientLabel content),
   normalize_name (specLabelField hospitalLabel content),
   .str (specLabelField amountLabel content)⟩

/-- A decoder that always reports `json.JSONDecodeError` — the behaviour
of `json.loads` on any non-JSON payload. -/
def jdFail : List Char → JDecode := fun _ => .decodeError

/-- A decoder that reports a successfully decoded non-object JSON value —
the behaviour of `json.loads` on a payload such as `[1, 2]`. -/
def jdNonObj : List Char → JDecode := fun _ => .nonObjValue

/-! ## Retry logic (`send_api_request`, batch script lines 140-170) -/

/-- The observable part of an HTTP response: the status code and the
`Retry-After` header parsed as an integer (absent when the header is
missing). -/
structure Resp where
  status : Nat
  retryAfter : Option Nat
deriving DecidableEq, Repr

/-- What one `requests.post` + `raise_for_status` attempt does:
succeed; raise an HTTP-status error (a response object exists and the
local variable `response` is bound to it); or raise a connection-level
error before any response exists (the local `response` is not bound by
this attempt). -/
inductive Outcome where
  | success (r : Resp)
  | httpFail (r : Resp)
  | connFail
deriving DecidableEq, Repr

/-- How `send_api_request` can raise. -/
inductive SendErr where
  | maxRetries
  | unboundLocal
deriving DecidableEq, Repr

def MAX_RETRIES : Nat := 3
def RETRY_DELAY : Nat := 2

/-- The sleep duration picked in the `except` branch:
`Retry-After` (or `RETRY_DELAY * 2`) for a 429 response, `RETRY_DELAY`
otherwise. -/
def sleepFor (r : Resp) : Nat :=
  if r.status = 429 then r.retryAfter.getD (RETRY_DELAY * 2) else RETRY_DELAY

/-- The retry loop of `send_api_request`.  `net` gives the outcome of
each attempt, `bound` tracks the Python local `response` (bound only by
attempts that obtained a response object), `fuel` counts the remaining
loop iterations.  Returns the result (or raised error), the list of
sleeps performed, and the number of attempts made.  When an attempt
raises a connection-level error with `response` never yet bound, the
`except` branch itself raises `UnboundLocalError` on
`response.status_code` — modelled as `.error .unboundLocal`. -/
def sendGo (net : Nat → Outcome) :
    Nat → Nat → Option Resp → List Nat → Except SendErr Resp × List Nat × Nat
  | 0, att, _, sleeps => (.error .maxRetries, sleeps, att)
  | fuel + 1, att, bound, sleeps =>
    match net att with
    | .success r => (.ok r, sleeps, att + 1)
    | .httpFail r =>
      if fuel = 0 then (.error .maxRetries, sleeps, att + 1)
      else sendGo net fuel (att + 1) (some r) (sleeps ++ [sleepFor r])
    | .connFail =>
      if fuel = 0 then (.error .maxRetries, sleeps, att + 1)
      else
        match bound with
        | none => (.error .unboundLocal, sleeps, att + 1)
        | some r => sendGo net fuel (att + 1) (some r) (sleeps ++ [sleepFor r])

/-- `send_api_request`: up to `MAX_RETRIES` attempts with the Python
local `response` initially unbound. -/
def send_api_request (net : Nat → Outcome) : Except SendErr Resp × List Nat × Nat :=
  sendGo net MAX_RETRIES 0 none []

/-- The result-collection loop of `batch_extract_info_from_images`
(lines 108-126): each worker's outcome is taken independently, and a
worker that raised is converted into the error-sentinel item for its
filename — one failure never affects the siblings' entries. -/
def collect_results (rs : List (List Char × Except Unit RawItem)) : List RawItem :=
  rs.map (fun p => match p.2 with | .ok it => it | .error _ => errRaw p.1)

/-! ## Lemmas about the name normalizer -/

theorem stripOne_pre (acc h : List Char) : stripOne acc h <+: acc := by
  unfold stripOne
  split
  · exact List.take_prefix _ _
  · exact List.prefix_refl _

theorem foldl_stripOne_pre : ∀ (hons : List (List Char)) (l : List Char),
    hons.foldl stripOne l <+: l
  | [], l => List.prefix_refl l
  | h :: t, l => by
    have h1 := foldl_stripOne_pre t (stripOne l h)
    have h2 := stripOne_pre l h
    simpa [List.foldl_cons] using h1.trans h2

theorem stripHonorifics_pre (l : List Char) : stripHonorifics l <+: l :=
  foldl_stripOne_pre honorifics l

theorem lstrip_sfx (s : List Char) : lstrip s <:+ s := List.dropWhile_suffix pyIsWs

theorem rstrip_pre (s : List Char) : rstrip s <+: s := by
  unfold rstrip
  obtain ⟨t, ht⟩ := List.dropWhile_suffix (l := s.reverse) pyIsWs
  exact ⟨t.reverse, by rw [← List.reverse_append, ht, List.reverse_reverse]⟩

theorem mem_of_pyStrip {c : Char} {s : List Char} (h : c ∈ pyStrip s) : c ∈ s := by
  have h1 : c ∈ lstrip s := (rstrip_pre (lstrip s)).sublist.subset h
  exact (lstrip_sfx s).sublist.subset h1

theorem head_of_pre {l₁ l₂ : List Char} {c : Char} {t : List Char}
    (h : l₁ <+: l₂) (he : l₁ = c :: t) : ∃ t', l₂ = c :: t' := by
  obtain ⟨r, rfl⟩ := h
  subst he
  exact ⟨t ++ r, rfl⟩

theorem dropWhile_head_not {p : Char → Bool} :
    ∀ {s : List Char} {c : Char} {t : List Char}, s.dropWhile p = c :: t → p c = false := by
  intro s
  induction s with
  | nil => intro c t h; simp [List.dropWhile] at h
  | cons a rest ih =>
    intro c t h
    by_cases hp : p a
    · rw [List.dropWhile_cons_of_pos hp] at h
      exact ih h
    · rw [List.dropWhile_cons_of_neg hp] at h
      cases h
      simpa using hp

theorem lstrip_head_not_ws {s : List Char} {c : Char} {t : List Char}
    (h : lstrip s = c :: t) : pyIsWs c = false :=
  dropWhile_head_not h

/-- A string that is non-empty, contains no space characters, starts and
ends with non-whitespace, and ends with no honorific is a fixed point of
`normalize_name`. -/
theorem normalize_name_fix (r : List Char)
    (h0 : r ≠ [])
    (hsp : ∀ c ∈ r, (!(c == '　' || c == ' ')) = true)
    (hhd : ∀ c t, r = c :: t → pyIsWs c = false)
    (hlast : ∀ c, r.getLast? = some c → pyIsWs c = false)
    (hhon : ∀ h ∈ honorifics, h.isSuffixOf r = false) :
    normalize_name r = r := by
  have h1 : spaceFilter r = r := List.filter_eq_self.mpr hsp
  have h2 : lstrip r = r := by
    obtain ⟨c, t, rfl⟩ := List.exists_cons_of_ne_nil h0
    unfold lstrip
    rw [List.dropWhile_cons_of_neg]
    simp [hhd c t rfl]
  have h3 : rstrip r = r := by
    have hne : r.reverse ≠ [] := by simpa using h0
    obtain ⟨c, t, hct⟩ := List.exists_cons_of_ne_nil hne
    have hcl : r.getLast? = some c := by rw [← List.head?_reverse, hct]; rfl
    unfold rstrip
    rw [hct, List.dropWhile_cons_of_neg (by simp [hlast c hcl]), ← hct, List.reverse_reverse]
  have ha := hhon "さん".data (by simp [honorifics])
  have hb := hhon "様".data (by simp [honorifics])
  have hc := hhon "殿".data (by simp [honorifics])
  have hd := hhon "氏".data (by simp [honorifics])
  have he := hhon "先生".data (by simp [honorifics])
  have h4 : stripHonorifics r = r := by
    simp [stripHonorifics, honorifics, stripOne, ha, hb, hc, hd, he]
  unfold normalize_name
  rw [if_neg h0]
  unfold pyStrip
  rw [h1, h2, h3, h4]

theorem normalize_eq_core {s : List Char} (hs : s ≠ []) :
    normalize_name s = stripHonorifics (pyStrip (spaceFilter s)) := by
  unfold normalize_name
  rw [if_neg hs]

/-! ## Claim C4: idempotence of the normalizer -/

/-- C4 (counterexample).  The claim "normalize(normalize(s)) ==
normalize(s) for every string s" is false: on input `様様` one call
strips only the final `様` (the honorific loop passes each honorific
once, and `様` is tried only once), so a second call strips again. -/
theorem C4_counterexample :
    normalize_name (normalize_name "様様".data) ≠ normalize_name "様様".data ∧
    normalize_name "様様".data = "様".data ∧
    normalize_name (normalize_name "様様".data) = [] := by
  refine ⟨?_, by decide, by decide⟩
  decide

/-- C4 (amended).  `normalize_name` is idempotent on every input whose
normalization result is non-empty, does not end with any honorific of the
list, and does not end with a whitespace character.  (The three excluded
situations are exactly the counterexample's failure modes: a result that
is empty maps to `不明` on the second call, a result still ending in an
honorific is stripped further, and stripping can expose trailing
whitespace that the second call's `strip()` removes.) -/
theorem C4_amended (s : List Char)
    (h1 : normalize_name s ≠ [])
    (hhon : honorifics.all (fun h => !(h.isSuffixOf (normalize_name s))) = true)
    (hlast : (normalize_name s).getLast?.all (fun c => !(pyIsWs c)) = true) :
    normalize_name (normalize_name s) = normalize_name s := by
  by_cases hs : s = []
  · subst hs
    decide
  · have hr : normalize_name s = stripHonorifics (pyStrip (spaceFilter s)) :=
      normalize_eq_core hs
    apply normalize_name_fix _ h1
    · intro c hc
      have hc1 : c ∈ pyStrip (spaceFilter s) := by
        rw [hr] at hc
        exact (stripHonorifics_pre _).sublist.subset hc
      have hc2 : c ∈ spaceFilter s := mem_of_pyStrip hc1
      unfold spaceFilter at hc2
      simpa using (List.mem_filter.mp hc2).2
    · intro c t hct
      have hpre : normalize_name s <+: pyStrip (spaceFilter s) := by
        rw [hr]; exact stripHonorifics_pre _
      obtain ⟨t1, ht1⟩ := head_of_pre hpre hct
      have hpre2 : pyStrip (spaceFilter s) <+: lstrip (spaceFilter s) :=
        rstrip_pre (lstrip (spaceFilter s))
      obtain ⟨t2, ht2⟩ := head_of_pre hpre2 ht1
      exact lstrip_head_not_ws ht2
    · intro c hcl
      rw [hcl] at hlast
      simpa using hlast
    · intro h hmem
      have := List.all_eq_true.mp hhon h hmem
      simpa using this

/-- C4 (witness): a concrete instantiation of the amended idempotence
theorem. -/
theorem C4_witness :
    (normalize_name "田中　太郎様".data ≠ [] ∧
      honorifics.all (fun h => !(h.isSuffixOf (normalize_name "田中　太郎様".data))) = true ∧
      (normalize_name "田中　太郎様".data).getLast?.all (fun c => !(pyIsWs c)) = true) ∧
    normalize_name (normalize_name "田中　太郎様".data) = normalize_name "田中　太郎様".data :=
  ⟨⟨by decide, by decide, by decide⟩, C4_amended _ (by decide) (by decide) (by decide)⟩

/-! ## Claim C5: how many honorific suffixes one call removes -/

theorem stripOne_decomp (acc h : List Char) (hs : h.isSuffixOf acc = true) :
    acc = stripOne acc h ++ h := by
  unfold stripOne
  rw [if_pos hs]
  obtain ⟨pre, hpre⟩ := List.isSuffixOf_iff_suffix.mp hs
  rw [← hpre, List.length_append, Nat.add_sub_cancel, List.take_left]

theorem foldl_strip_decomp : ∀ (hons : List (List Char)) (l : List Char),
    ∃ hs : List (List Char), hs.Sublist hons ∧ l = hons.foldl stripOne l ++ hs.reverse.flatten
  | [], l => ⟨[], List.nil_sublist _, by simp⟩
  | h :: t, l => by
    by_cases hsf : h.isSuffixOf l = true
    · obtain ⟨hs, hsub, heq⟩ := foldl_strip_decomp t (stripOne l h)
      refine ⟨h :: hs, hsub.cons₂ h, ?_⟩
      have hstep : (h :: t).foldl stripOne l = t.foldl stripOne (stripOne l h) := by
        simp [List.foldl_cons]
      rw [hstep]
      calc l = stripOne l h ++ h := stripOne_decomp l h hsf
        _ = (t.foldl stripOne (stripOne l h) ++ hs.reverse.flatten) ++ h := by rw [← heq]
        _ = t.foldl stripOne (stripOne l h) ++ (h :: hs).reverse.flatten := by
          simp [List.append_assoc]
    · obtain ⟨hs, hsub, heq⟩ := foldl_strip_decomp t l
      refine ⟨hs, hsub.cons h, ?_⟩
      have hstep : (h :: t).foldl stripOne l = t.foldl stripOne l := by
        simp [List.foldl_cons, stripOne, hsf]
      rw [hstep]
      exact heq

/-- C5 (counterexample).  The claim "one call removes at most one
trailing suffix from the fixed list" fails on `田中様さん`: the
space-normalized base is the input itself, yet the result `田中` differs
from the base by more than one listed suffix (the loop strips `さん`,
then also `様`). -/
theorem C5_counterexample :
    normalize_name "田中様さん".data = "田中".data ∧
    pyStrip (spaceFilter "田中様さん".data) = "田中様さん".data ∧
    "田中様さん".data ≠ "田中".data ∧
    (∀ h ∈ honorifics, "田中様さん".data ≠ "田中".data ++ h) := by
  refine ⟨by decide, by decide, by decide, ?_⟩
  decide

/-- C5 (amended).  One call to `normalize_name` removes, from the
space-stripped input, a concatenation of honorific suffixes that form a
sublist of the fixed honorific list — i.e. at most one occurrence of each
listed honorific, tried in the fixed list order (`さん`, `様`, `殿`,
`氏`, `先生`), innermost-stripped-first — rather than at most one suffix
in total. -/
theorem C5_amended (s : List Char) (hs : s ≠ []) :
    ∃ removed : List (List Char), removed.Sublist honorifics ∧
      pyStrip (spaceFilter s) = normalize_name s ++ removed.reverse.flatten := by
  rw [normalize_eq_core hs]
  exact foldl_strip_decomp honorifics (pyStrip (spaceFilter s))

/-- C5 (witness): the amended statement at the concrete input
`田中様さん`. -/
theorem C5_witness :
    ("田中様さん".data ≠ ([] : List Char)) ∧
    (∃ removed : List (List Char), removed.Sublist honorifics ∧
      pyStrip (spaceFilter "田中様さん".data) =
        normalize_name "田中様さん".data ++ removed.reverse.flatten) :=
  ⟨by decide, C5_amended _ (by decide)⟩

/-! ## Claim C10: when the normalizer returns the unknown sentinel -/

/-- C10 (counterexample).  "normalize returns `不明` only when its input
is empty or missing" is false: the non-empty inputs `不明` and `不明様`
also return `不明`. -/
theorem C10_counterexample :
    normalize_name "不明".data = UNKNOWN ∧ "不明".data ≠ ([] : List Char) ∧
    normalize_name "不明様".data = UNKNOWN ∧ "不明様".data ≠ ([] : List Char) := by
  refine ⟨by decide, by decide, by decide, ?_⟩
  decide

/-- C10 (amended).  For a non-empty input the normalizer returns `不明`
exactly when the space- and honorific-stripped content is the literal
string `不明` (so `不明` is not reserved for empty input); and a
non-empty input consisting solely of space characters normalizes to the
empty string, not to the sentinel — as does an input wholly consumed by
honorific stripping, e.g. `様`. -/
theorem C10_amended (s : List Char) (hne : s ≠ []) :
    (normalize_name s = UNKNOWN ↔ stripHonorifics (pyStrip (spaceFilter s)) = UNKNOWN) ∧
    ((∀ c ∈ s, (c == ' ' || c == '　') = true) → normalize_name s = []) ∧
    normalize_name "様".data = [] ∧
    UNKNOWN ≠ ([] : List Char) := by
  refine ⟨?_, ?_, by decide, by decide⟩
  · rw [normalize_eq_core hne]
  · intro hall
    have hfe : spaceFilter s = [] := by
      apply List.filter_eq_nil_iff.mpr
      intro a ha
      have := hall a ha
      simp only [Bool.or_eq_true, beq_iff_eq] at this
      simp [this]
      rcases this with h | h <;> simp [h]
    rw [normalize_eq_core hne, hfe]
    decide

/-- C10 (witness): the amended statement at the concrete all-space input
`"　 "`. -/
theorem C10_witness :
    ("　 ".data ≠ ([] : List Char)) ∧
    ((∀ c ∈ "　 ".data, (c == ' ' || c == '　') = true) → normalize_name "　 ".data = []) ∧
    normalize_name "　 ".data = [] := by
  have h := C10_amended "　 ".data (by decide)
  exact ⟨by decide, h.2.1, h.2.1 (by decide)⟩

/-! ## Lemmas about the aggregation pass -/

theorem orderedKeys_nodup : ∀ items : List ReceiptItem, (orderedKeys items).Nodup
  | [] => List.nodup_nil
  | it :: rest => by
    rw [orderedKeys]
    refine List.Nodup.cons ?_ ((orderedKeys_nodup rest).filter _)
    intro hmem
    have := List.of_mem_filter hmem
    simp at this

theorem orderedKeys_cover : ∀ (items : List ReceiptItem) (i : ReceiptItem),
    i ∈ items → keyOf i ∈ orderedKeys items
  | [], _, h => by cases h
  | it :: rest, i, h => by
    rw [orderedKeys]
    rcases List.mem_cons.mp h with h | h
    · subst h
      exact List.mem_cons_self _ _
    · by_cases hk : keyOf i = keyOf it
      · rw [hk]
        exact List.mem_cons_self _ _
      · refine List.mem_cons_of_mem _ (List.mem_filter.mpr ⟨orderedKeys_cover rest i h, ?_⟩)
        simp [hk]

theorem sum_filter_split (p : ReceiptItem → Bool) (f : ReceiptItem → Nat) :
    ∀ l : List ReceiptItem,
      ((l.filter p).map f).sum + ((l.filter (fun a => !(p a))).map f).sum = (l.map f).sum
  | [] => rfl
  | it :: rest => by
    have hrec := sum_filter_split p f rest
    by_cases hp : p it = true
    · simp [List.filter_cons, hp, List.sum_cons]
      omega
    · have hp' : p it = false := by simpa using hp
      simp [List.filter_cons, hp', List.sum_cons]
      omega

/-- Summing a per-group quantity over the groups of a nodup key list that
covers all items recovers the sum over all items. -/
theorem sum_over_keys (f : ReceiptItem → Nat) :
    ∀ (ks : List (List Char)) (items : List ReceiptItem), ks.Nodup →
      (∀ i ∈ items, keyOf i ∈ ks) →
      (ks.map (fun k => ((items.filter (hasKey k)).map f).sum)).sum = (items.map f).sum
  | [], items, _, hcov => by
    have : items = [] := by
      cases items with
      | nil => rfl
      | cons it rest => exact absurd (hcov it (List.mem_cons_self _ _)) (by simp)
    simp [this]
  | k :: ks, items, hnd, hcov => by
    have hk_not : k ∉ ks := (List.nodup_cons.mp hnd).1
    have hnd' : ks.Nodup := (List.nodup_cons.mp hnd).2
    set B := items.filter (fun i => !(hasKey k i)) with hB
    have hcongr : ∀ k' ∈ ks,
        ((items.filter (hasKey k')).map f).sum = ((B.filter (hasKey k')).map f).sum := by
      intro k' hk'
      have hkk : k' ≠ k := fun he => hk_not (he ▸ hk')
      have hfe : B.filter (hasKey k') = items.filter (hasKey k') := by
        rw [hB, List.filter_filter]
        apply List.filter_congr
        intro i _
        show (hasKey k' i && !(hasKey k i)) = hasKey k' i
        by_cases hik : hasKey k' i = true
        · have hik2 : keyOf i = k' := by simpa [hasKey] using hik
          have hkf : hasKey k i = false := by
            have hb : (keyOf i == k) = false := by
              rw [hik2]
              exact beq_eq_false_iff_ne.mpr hkk
            simpa [hasKey] using hb
          rw [hik, hkf]
          rfl
        · have hikf : hasKey k' i = false := by simpa using hik
          rw [hikf]
          rfl
      rw [hfe]
    have hcov' : ∀ i ∈ B, keyOf i ∈ ks := by
      intro i hi
      have hmem : i ∈ items := List.mem_of_mem_filter hi
      have hnk : hasKey k i = false := by simpa using List.of_mem_filter hi
      rcases List.mem_cons.mp (hcov i hmem) with h | h
      · have hkt : hasKey k i = true := by simp [hasKey, h]
        rw [hkt] at hnk
        cases hnk
      · exact h
    calc (((k :: ks).map (fun k' => ((items.filter (hasKey k')).map f).sum)).sum)
        = ((items.filter (hasKey k)).map f).sum
            + (ks.map (fun k' => ((items.filter (hasKey k')).map f).sum)).sum := by
          simp
      _ = ((items.filter (hasKey k)).map f).sum
            + (ks.map (fun k' => ((B.filter (hasKey k')).map f).sum)).sum := by
          rw [List.map_congr_left hcongr]
      _ = ((items.filter (hasKey k)).map f).sum + (B.map f).sum := by
          rw [sum_over_keys f ks B hnd' hcov']
      _ = (items.map f).sum := sum_filter_split (hasKey k) f items

/-- The totalling loop of `mkGroup` computes the sum of the integer
amounts and the count of items having one. -/
theorem foldl_amtStep : ∀ (l : List ReceiptItem) (a : Int) (b : Nat),
    l.foldl amtStep (a, b) =
      (a + ((l.filterMap amountInt).sum), b + (l.filter isIntAmount).length)
  | [], a, b => by simp
  | it :: rest, a, b => by
    cases hit : it.amount with
    | int n =>
      have h1 : amtStep (a, b) it = (a + n, b + 1) := by simp [amtStep, hit]
      have h2 : amountInt it = some n := by simp [amountInt, hit]
      have h3 : isIntAmount it = true := by simp [isIntAmount, hit]
      simp only [List.foldl_cons, h1, foldl_amtStep rest, List.filterMap_cons, h2,
        List.filter_cons, h3, if_true, List.sum_cons, List.length_cons]
      rw [Prod.mk.injEq]
      constructor <;> omega
    | text s =>
      have h1 : amtStep (a, b) it = (a, b) := by simp [amtStep, hit]
      have h2 : amountInt it = none := by simp [amountInt, hit]
      have h3 : isIntAmount it = false := by simp [isIntAmount, hit]
      simp [List.foldl_cons, h1, foldl_amtStep rest, List.filterMap_cons, h2,
        List.filter_cons, h3]

theorem splitFirstUnderscore_append (h p : List Char) (hh : '_' ∉ h) :
    splitFirstUnderscore (h ++ '_' :: p) = (h, p) := by
  induction h with
  | nil => simp [splitFirstUnderscore]
  | cons c rest ih =>
    have hc : c ≠ '_' := fun he => hh (he ▸ List.mem_cons_self _ _)
    have hrest : '_' ∉ rest := fun hm => hh (List.mem_cons_of_mem _ hm)
    simp [splitFirstUnderscore, hc, ih hrest]

theorem sum_map_one : ∀ l : List ReceiptItem, (l.map (fun _ => (1 : Nat))).sum = l.length
  | [] => rfl
  | _ :: rest => by simp [sum_map_one rest, Nat.add_comm]

theorem sum_map_ind : ∀ l : List ReceiptItem,
    (l.map (fun i => if isIntAmount i then (1 : Nat) else 0)).sum
      = (l.filter isIntAmount).length
  | [] => rfl
  | it :: rest => by
    by_cases h : isIntAmount it = true
    · simp [List.filter_cons, h, sum_map_ind rest, Nat.add_comm]
    · have h' : isIntAmount it = false := by simpa using h
      simp [List.filter_cons, h', sum_map_ind rest]

theorem mkGroup_total (k : List Char) (l : List ReceiptItem) :
    (mkGroup k l).total_amount = (l.filterMap amountInt).sum := by
  show (l.foldl amtStep ((0 : Int), (0 : Nat))).1 = _
  rw [foldl_amtStep]
  simp

theorem mkGroup_count (k : List Char) (l : List ReceiptItem) :
    (mkGroup k l).receipts_with_amount = (l.filter isIntAmount).length := by
  show (l.foldl amtStep ((0 : Int), (0 : Nat))).2 = _
  rw [foldl_amtStep]
  simp

theorem mkGroup_rc (k : List Char) (l : List ReceiptItem) :
    (mkGroup k l).receipt_count = l.length := rfl

theorem mkGroup_files (k : List Char) (l : List ReceiptItem) :
    (mkGroup k l).filenames = l.map (fun i => i.filename) := rfl

/-- Two items land in the same consolidated group. -/
def sameGroup (items : List ReceiptItem) (i j : ReceiptItem) : Prop :=
  ∃ k, k ∈ orderedKeys items ∧ i ∈ items.filter (hasKey k) ∧ j ∈ items.filter (hasKey k)

/-! ## Claim C1: the grouping key -/

/-- Item list showing the delimiter collision: hospital `A_B` with
patient `C` meets hospital `A` with patient `B_C`. -/
def itemsC1 : List ReceiptItem :=
  [⟨"f1".data, "C".data, "A_B".data, .int 100⟩,
   ⟨"f2".data, "B_C".data, "A".data, .int 200⟩]

/-- C1 (counterexample).  Aggregation joins the two names with an
underscore and later re-splits at the first underscore, so two items
whose normalized hospital names differ (`A_B` vs `A`) fall into a single
group, and that group's output `hospital_name` (`A`) and `patient_name`
(`B_C`) do not match member 1's fields (`A_B`, `C`) — refuting both the
composite-key reading and the output-name equation.  (`normalize_name`
passes underscores through, so such fields are reachable.) -/
theorem C1_counterexample :
    (process_group_results itemsC1).length = 1 ∧
    (process_group_results itemsC1).map (fun g => g.hospital_name) = ["A".data] ∧
    (process_group_results itemsC1).map (fun g => g.patient_name) = ["B_C".data] ∧
    itemsC1.map (fun i => i.hospital_name) = ["A_B".data, "A".data] ∧
    "A_B".data ≠ "A".data ∧
    normalize_name "A_B".data = "A_B".data := by
  refine ⟨by decide, by decide, by decide, by decide, by decide, ?_⟩
  decide

/-- C1 (amended).  Two items share a group iff their underscore-joined
`hospital_patient` strings are equal (not iff the name pairs are equal);
and a group's output names are the key split at its first underscore,
which recovers the member's names exactly when the member's
`hospital_name` contains no underscore. -/
theorem C1_amended (items : List ReceiptItem) (i j : ReceiptItem)
    (hi : i ∈ items) (hj : j ∈ items) :
    (sameGroup items i j ↔ keyOf i = keyOf j) ∧
    mkGroup (keyOf i) (items.filter (hasKey (keyOf i))) ∈ process_group_results items ∧
    ('_' ∉ i.hospital_name →
      (mkGroup (keyOf i) (items.filter (hasKey (keyOf i)))).hospital_name = i.hospital_name ∧
      (mkGroup (keyOf i) (items.filter (hasKey (keyOf i)))).patient_name = i.patient_name) := by
  refine ⟨⟨?_, ?_⟩, ?_, ?_⟩
  · rintro ⟨k, _, hik, hjk⟩
    have h1 : keyOf i = k := by simpa [hasKey] using List.of_mem_filter hik
    have h2 : keyOf j = k := by simpa [hasKey] using List.of_mem_filter hjk
    rw [h1, h2]
  · intro hk
    refine ⟨keyOf i, orderedKeys_cover items i hi, ?_, ?_⟩
    · exact List.mem_filter.mpr ⟨hi, by simp [hasKey]⟩
    · exact List.mem_filter.mpr ⟨hj, by simp [hasKey, hk]⟩
  · exact List.mem_map_of_mem _ (orderedKeys_cover items i hi)
  · intro hu
    have hsplit : splitFirstUnderscore (keyOf i) = (i.hospital_name, i.patient_name) :=
      splitFirstUnderscore_append _ _ hu
    constructor <;> simp [mkGroup, hsplit]

def itemsW1 : List ReceiptItem :=
  [⟨"a.jpg".data, "P".data, "H".data, .int 500⟩,
   ⟨"b.jpg".data, "P".data, "H".data, .text "N/A".data⟩]

/-- C1 (witness): the amended statement instantiated on two concrete
items of the same group. -/
theorem C1_witness :
    (itemsW1.get ⟨0, by decide⟩ ∈ itemsW1 ∧ itemsW1.get ⟨1, by decide⟩ ∈ itemsW1) ∧
    ((sameGroup itemsW1 (itemsW1.get ⟨0, by decide⟩) (itemsW1.get ⟨1, by decide⟩) ↔
        keyOf (itemsW1.get ⟨0, by decide⟩) = keyOf (itemsW1.get ⟨1, by decide⟩)) ∧
      mkGroup (keyOf (itemsW1.get ⟨0, by decide⟩))
          (itemsW1.filter (hasKey (keyOf (itemsW1.get ⟨0, by decide⟩)))) ∈
        process_group_results itemsW1 ∧
      ('_' ∉ (itemsW1.get ⟨0, by decide⟩).hospital_name →
        (mkGroup (keyOf (itemsW1.get ⟨0, by decide⟩))
            (itemsW1.filter (hasKey (keyOf (itemsW1.get ⟨0, by decide⟩))))).hospital_name =
          (itemsW1.get ⟨0, by decide⟩).hospital_name ∧
        (mkGroup (keyOf (itemsW1.get ⟨0, by decide⟩))
            (itemsW1.filter (hasKey (keyOf (itemsW1.get ⟨0, by decide⟩))))).patient_name =
          (itemsW1.get ⟨0, by decide⟩).patient_name)) :=
  ⟨⟨by decide, by decide⟩, C1_amended itemsW1 _ _ (by decide) (by decide)⟩

/-! ## Claim C2: per-group fields -/

/-- The claim's notion of a countable amount: a valid NON-NEGATIVE
integer (modelled from the claim's words; the code has no sign check). -/
def nonNegIntAmount (it : ReceiptItem) : Bool :=
  match it.amount with
  | .int n => decide (0 ≤ n)
  | .text _ => false

def itemsC2 : List ReceiptItem :=
  [⟨"f1".data, "P".data, "H".data, .int 1000⟩,
   ⟨"f2".data, "P".data, "H".data, .int (-500)⟩]

/-- C2 (counterexample).  The group loop counts every `int` amount,
negative ones included (`isinstance(amount, (int, float))` has no sign
check), so with member amounts `1000` and `-500` the code produces
`total_amount = 500` and `receipts_with_amount = 2`, where the claim's
"valid non-negative integer" reading demands `1000` and `1`.  The
negative amount is reachable: the conversion pass turns the text
`"-500"` into the integer `-500`. -/
theorem C2_counterexample :
    (process_group_results itemsC2).map (fun g => g.total_amount) = [500] ∧
    (process_group_results itemsC2).map (fun g => g.receipts_with_amount) = [2] ∧
    ((itemsC2.filter nonNegIntAmount).filterMap amountInt).sum = 1000 ∧
    (itemsC2.filter nonNegIntAmount).length = 1 ∧
    ((500 : Int) ≠ 1000 ∧ (2 : Nat) ≠ 1) ∧
    convert_amount "-500".data = .int (-500) := by
  refine ⟨by decide, by decide, by decide, by decide, ⟨by decide, by decide⟩, ?_⟩
  decide

/-- C2 (amended).  For every group: `total_amount` is the sum of the
integer amounts of its members (of any sign — "non-negative" is not
checked), `receipts_with_amount` counts exactly the members with integer
amounts, `receipt_count` counts all members, and `filenames` lists member
filenames in encounter order. -/
theorem C2_amended (items : List ReceiptItem) (g : Group)
    (hg : g ∈ process_group_results items) :
    ∃ k, k ∈ orderedKeys items ∧ g = mkGroup k (items.filter (hasKey k)) ∧
      g.total_amount = ((items.filter (hasKey k)).filterMap amountInt).sum ∧
      g.receipts_with_amount = ((items.filter (hasKey k)).filter isIntAmount).length ∧
      g.receipt_count = (items.filter (hasKey k)).length ∧
      g.filenames = (items.filter (hasKey k)).map (fun i => i.filename) := by
  obtain ⟨k, hk, heq⟩ := List.mem_map.mp hg
  refine ⟨k, hk, heq.symm, ?_, ?_, ?_, ?_⟩ <;> rw [← heq]
  · exact mkGroup_total _ _
  · exact mkGroup_count _ _
  · exact mkGroup_rc _ _
  · exact mkGroup_files _ _

def itemsW2 : List ReceiptItem :=
  [⟨"a.jpg".data, "P".data, "H".data, .int 1000⟩,
   ⟨"b.jpg".data, "P".data, "H".data, .text "N/A".data⟩,
   ⟨"c.jpg".data, "P".data, "H".data, .int 2500⟩]

def groupW2 : Group :=
  ⟨"H".data, "P".data, 3500, 3, 2, ["a.jpg".data, "b.jpg".data, "c.jpg".data]⟩

/-- C2 (witness): the amended statement on the spec's own mixed-amount
example `[1000, "N/A", 2500]`. -/
theorem C2_witness :
    groupW2 ∈ process_group_results itemsW2 ∧
    (∃ k, k ∈ orderedKeys itemsW2 ∧ groupW2 = mkGroup k (itemsW2.filter (hasKey k)) ∧
      groupW2.total_amount = ((itemsW2.filter (hasKey k)).filterMap amountInt).sum ∧
      groupW2.receipts_with_amount = ((itemsW2.filter (hasKey k)).filter isIntAmount).length ∧
      groupW2.receipt_count = (itemsW2.filter (hasKey k)).length ∧
      groupW2.filenames = (itemsW2.filter (hasKey k)).map (fun i => i.filename)) :=
  ⟨by decide, C2_amended itemsW2 groupW2 (by decide)⟩

/-! ## Claim C3: conservation across groups -/

def itemsC3 : List ReceiptItem := [⟨"f1".data, "P".data, "H".data, .int (-1)⟩]

/-- C3 (counterexample).  With a single item of (reachable) integer
amount `-1`, the groups' `receipts_with_amount` sum to 1, while the
number of items with a valid NON-NEGATIVE integer amount is 0 — the
second half of the claim fails as stated. -/
theorem C3_counterexample :
    ((process_group_results itemsC3).map (fun g => g.receipts_with_amount)).sum = 1 ∧
    (itemsC3.filter nonNegIntAmount).length = 0 ∧
    (1 : Nat) ≠ 0 ∧
    convert_amount "-1".data = .int (-1) := by
  refine ⟨by decide, by decide, by decide, ?_⟩
  decide

/-- C3 (amended).  For every item list, the groups' `receipt_count`
values sum to the number of items, and the groups' `receipts_with_amount`
values sum to the number of items whose amount is an integer (of any
sign — the code checks `isinstance`, not non-negativity). -/
theorem C3_amended (items : List ReceiptItem) :
    ((process_group_results items).map (fun g => g.receipt_count)).sum = items.length ∧
    ((process_group_results items).map (fun g => g.receipts_with_amount)).sum
      = (items.filter isIntAmount).length := by
  constructor
  · have h1 : (process_group_results items).map (fun g => g.receipt_count)
        = (orderedKeys items).map
            (fun k => ((items.filter (hasKey k)).map (fun _ => (1 : Nat))).sum) := by
      unfold process_group_results
      rw [List.map_map]
      apply List.map_congr_left
      intro k _
      show (mkGroup k (items.filter (hasKey k))).receipt_count = _
      rw [mkGroup_rc, sum_map_one]
    rw [h1,
      sum_over_keys _ _ _ (orderedKeys_nodup items) (fun i hi => orderedKeys_cover items i hi),
      sum_map_one]
  · have h1 : (process_group_results items).map (fun g => g.receipts_with_amount)
        = (orderedKeys items).map
            (fun k => ((items.filter (hasKey k)).map
                (fun i => if isIntAmount i then (1 : Nat) else 0)).sum) := by
      unfold process_group_results
      rw [List.map_map]
      apply List.map_congr_left
      intro k _
      show (mkGroup k (items.filter (hasKey k))).receipts_with_amount = _
      rw [mkGroup_count, sum_map_ind]
    rw [h1,
      sum_over_keys _ _ _ (orderedKeys_nodup items) (fun i hi => orderedKeys_cover items i hi),
      sum_map_ind]

/-! ## Lemmas about `pySplit` and `pyReplace` -/

theorem findSubstr_nil {pat : List Char} (h : pat ≠ []) : findSubstr pat [] = none := by
  cases pat with
  | nil => exact absurd rfl h
  | cons c t => simp [findSubstr, List.isPrefixOf]

theorem pySplitGo_congr {pat : List Char} (hpat : pat ≠ []) :
    ∀ (f1 : Nat) (s : List Char) (f2 : Nat), s.length ≤ f1 → s.length ≤ f2 →
      pySplitGo pat f1 s = pySplitGo pat f2 s
  | 0, s, f2, h1, _ => by
    have hs : s = [] := List.length_eq_zero.mp (Nat.le_zero.mp h1)
    subst hs
    cases f2 with
    | zero => rfl
    | succ f => simp [pySplitGo, findSubstr_nil hpat]
  | f1 + 1, s, f2, h1, h2 => by
    cases f2 with
    | zero =>
      have hs : s = [] := List.length_eq_zero.mp (Nat.le_zero.mp h2)
      subst hs
      simp [pySplitGo, findSubstr_nil hpat]
    | succ f2' =>
      simp only [pySplitGo]
      cases hf : findSubstr pat s with
      | none => rfl
      | some i =>
        have hle := findSubstr_le_length hpat hf
        have hlen : 0 < pat.length := List.length_pos.mpr hpat
        have hdl : (s.drop (i + pat.length)).length ≤ f1 := by
          simp only [List.length_drop]
          omega
        have hdl2 : (s.drop (i + pat.length)).length ≤ f2' := by
          simp only [List.length_drop]
          omega
        show s.take i :: pySplitGo pat f1 (s.drop (i + pat.length))
            = s.take i :: pySplitGo pat f2' (s.drop (i + pat.length))
        rw [pySplitGo_congr hpat f1 (s.drop (i + pat.length)) f2' hdl hdl2]

theorem pySplit_eq_cons {pat s : List Char} {i : Nat} (hpat : pat ≠ [])
    (hf : findSubstr pat s = some i) :
    pySplit pat s = s.take i :: pySplit pat (s.drop (i + pat.length)) := by
  unfold pySplit
  rw [if_neg hpat, if_neg hpat]
  have hle := findSubstr_le_length hpat hf
  have hlen : 0 < pat.length := List.length_pos.mpr hpat
  obtain ⟨m, hm⟩ : ∃ m, s.length = m + 1 := ⟨s.length - 1, by omega⟩
  rw [hm]
  simp only [pySplitGo, hf]
  congr 1
  apply pySplitGo_congr hpat
  · simp only [List.length_drop]
    omega
  · exact Nat.le_refl _

theorem pySplit_none {pat s : List Char} (hpat : pat ≠ [])
    (hf : findSubstr pat s = none) : pySplit pat s = [s] := by
  unfold pySplit
  rw [if_neg hpat]
  cases hl : s.length with
  | zero => simp [pySplitGo]
  | succ m => simp [pySplitGo, hf]

theorem pyReplaceGo_none {pat rep s : List Char} {fuel : Nat}
    (hf : findSubstr pat s = none) : pyReplaceGo pat rep fuel s = s := by
  cases fuel <;> simp [pyReplaceGo, hf]

theorem pyReplace_none {pat rep s : List Char} (hpat : pat ≠ [])
    (hf : findSubstr pat s = none) : pyReplace pat rep s = s := by
  unfold pyReplace
  rw [if_neg hpat]
  exact pyReplaceGo_none hf

/-- When the first occurrence of `pat` is the final segment of the
string, `replace` rewrites exactly that tail. -/
theorem pyReplace_last {pat rep q : List Char} (hpat : pat ≠ [])
    (hf : findSubstr pat (q ++ pat) = some q.length) :
    pyReplace pat rep (q ++ pat) = q ++ rep := by
  unfold pyReplace
  rw [if_neg hpat]
  have hlen : 0 < pat.length := List.length_pos.mpr hpat
  have hql : (q ++ pat).length = q.length + pat.length := by simp
  obtain ⟨m, hm⟩ : ∃ m, (q ++ pat).length = m + 1 := ⟨(q ++ pat).length - 1, by omega⟩
  rw [hm]
  simp only [pyReplaceGo, hf]
  have hdrop : (q ++ pat).drop (q.length + pat.length) = [] :=
    List.drop_eq_nil_of_le (by omega)
  rw [List.take_left, hdrop, pyReplaceGo_none (findSubstr_nil hpat), List.append_nil]

/-! ## Claim C6: the parser's fenced-block, success and fallback paths -/

theorem labelFieldRaw_eq_spec (label content : List Char) (hl : label ≠ []) :
    labelFieldRaw label content = specLabelField label content := by
  unfold labelFieldRaw specLabelField
  cases hf : findSubstr label content with
  | none => simp [hf]
  | some i =>
    rw [pySplit_eq_cons hl hf]
    cases hf2 : findSubstr label (content.drop (i + label.length)) with
    | none => rw [pySplit_none hl hf2]; simp [hf2]
    | some j => rw [pySplit_eq_cons hl hf2]; simp [hf2]

theorem fallbackFields_eq_spec (content : List Char) :
    fallbackFields content = specFallback content := by
  unfold fallbackFields specFallback
  rw [labelFieldRaw_eq_spec _ _ (by decide), labelFieldRaw_eq_spec _ _ (by decide),
    labelFieldRaw_eq_spec _ _ (by decide)]

def contentA : List Char := "患者氏名: 田中様\n".data
def contentB : List Char := "患者氏名:A患者氏名:B\n".data

/-- C6 (counterexample).  Two fallback-path divergences from the claim as
stated, both on undecodable payloads (`jdFail` is `json.loads` on
non-JSON text): (1) the code passes the label-searched name through the
Name Normalizer (`田中様` becomes `田中`), while the claim says the
trimmed substring itself is the field's value; (2) the code's
`split(label)[1]` stops at the NEXT occurrence of the label, not at the
next line break, so for `患者氏名:A患者氏名:B\n` it extracts `A`, where
the claim's to-the-line-break reading gives `A患者氏名:B` (normalised or
not). -/
theorem C6_counterexample :
    parseCore jdFail contentA = .ok ⟨"田中".data, UNKNOWN, .str UNKNOWN⟩ ∧
    claimFallback contentA = ⟨"田中様".data, UNKNOWN, .str UNKNOWN⟩ ∧
    "田中".data ≠ "田中様".data ∧
    parseCore jdFail contentB = .ok ⟨"A".data, UNKNOWN, .str UNKNOWN⟩ ∧
    claimLabelField patientLabel contentB = "A患者氏名:B".data ∧
    normalize_name "A患者氏名:B".data = "A患者氏名:B".data ∧
    "A".data ≠ "A患者氏名:B".data := by
  refine ⟨by decide, by decide, by decide, by decide, by decide, by decide, ?_⟩
  decide

/-- C6 (amended).  For every decoder behaviour and raw text: the
candidate payload is the inner content of the first ```` ```json ````
fenced block when one closes, else the whole text; when it decodes to an
object with the three fields as strings the parser returns the two names
normalised and the amount text untouched; when all three are missing each
resolves to `不明`; and on decode failure the parser label-searches — the
raw value being the text between the first occurrence of `<label>:` and
the next occurrence of that label (or the end), truncated at the first
line break and trimmed, with the two names then passed through the Name
Normalizer and absent labels resolving to `不明`. -/
theorem C6_amended (jd : List Char → JDecode) (content : List Char) :
    (∀ ps hs as_, jd ((extractJsonBlock content).getD content)
        = .obj ⟨some (.str ps), some (.str hs), some (.str as_)⟩ →
      parseCore jd content = .ok ⟨normalize_name ps, normalize_name hs, .str as_⟩) ∧
    (jd ((extractJsonBlock content).getD content) = .obj ⟨none, none, none⟩ →
      parseCore jd content = .ok ⟨UNKNOWN, UNKNOWN, .str UNKNOWN⟩) ∧
    (jd ((extractJsonBlock content).getD content) = .decodeError →
      parseCore jd content = .ok (specFallback content)) := by
  refine ⟨?_, ?_, ?_⟩
  · intro ps hs as_ h
    simp only [parseCore, h, normalizeJ, Option.getD_some]
    rfl
  · intro h
    have hu : normalize_name UNKNOWN = UNKNOWN := by decide
    simp only [parseCore, h, normalizeJ, Option.getD_none, hu]
    rfl
  · intro h
    simp [parseCore, h, fallbackFields_eq_spec]

/-- A decoder answering with a fixed three-string object — `json.loads`
on a well-formed payload. -/
def jdObjW : List Char → JDecode := fun _ =>
  .obj ⟨some (.str "田中　太郎様".data), some (.str "市立病院".data), some (.str "3,000円".data)⟩

def contentW : List Char := "医療機関名: 市立病院\n".data

/-- C6 (witness): the amended statement applied on a concrete successful
decode and on a concrete decode failure. -/
theorem C6_witness :
    parseCore jdObjW contentW =
      .ok ⟨normalize_name "田中　太郎様".data, normalize_name "市立病院".data,
        .str "3,000円".data⟩ ∧
    parseCore jdFail contentW = .ok (specFallback contentW) :=
  ⟨(C6_amended jdObjW contentW).1 _ _ _ rfl, (C6_amended jdFail contentW).2.2 rfl⟩

/-! ## Claim C7: containment of unexpected decoding errors -/

/-- C7 (counterexample).  In the single-image script the `try` catches
only `requests.exceptions.RequestException`, so an unexpected decoding
error — here `json.loads` succeeding with the non-object `[1, 2]`, after
which `data.get` raises `AttributeError` — propagates out of
`extract_info_from_image` instead of yielding the `エラー` triple. -/
theorem C7_counterexample :
    extract_info_single (Except.ok "[1, 2]".data) jdNonObj = .error () ∧
    parse_api_response jdNonObj "[1, 2]".data "x.jpg".data = errRaw "x.jpg".data := by
  exact ⟨by decide, by decide⟩

/-- C7 (amended).  In the batch script every error raised during decoding
is caught at the item boundary and converted into the `エラー`-sentinel
item; in the single-image script only a transport-level
`RequestException` is converted into the `エラー` triple, and an
unexpected decoding error propagates to the caller. -/
theorem C7_amended (jd : List Char → JDecode) (content fn : List Char) :
    (∀ e, parseCore jd content = .error e →
      parse_api_response jd content fn = errRaw fn ∧
      extract_info_single (.ok content) jd = .error e) ∧
    (∀ e : Unit, extract_info_single (.error e) jd
      = .ok ⟨ERRVAL, ERRVAL, .str ERRVAL⟩) := by
  constructor
  · intro e he
    constructor
    · unfold parse_api_response
      rw [he]
    · unfold extract_info_single
      exact he
  · intro e
    rfl

/-- C7 (witness): the amended statement on a concrete non-object decode
and a concrete transport failure. -/
theorem C7_witness :
    (parseCore jdNonObj "x".data = .error () ∧
      (parse_api_response jdNonObj "x".data "w.jpg".data = errRaw "w.jpg".data ∧
        extract_info_single (.ok "x".data) jdNonObj = .error ())) ∧
    extract_info_single (.error ()) jdNonObj = .ok ⟨ERRVAL, ERRVAL, .str ERRVAL⟩ :=
  ⟨⟨by decide, (C7_amended jdNonObj "x".data "w.jpg".data).1 () (by decide)⟩,
    (C7_amended jdNonObj "x".data "w.jpg".data).2 ()⟩

/-! ## Claim C8: retry policy -/

def netConnFirst : Nat → Outcome := fun n => if n = 0 then .connFail else .success ⟨200, none⟩

def netAll500 : Nat → Outcome := fun _ => .httpFail ⟨500, none⟩

def net429Once : Nat → Outcome :=
  fun n => if n = 0 then .httpFail ⟨429, some 7⟩ else .success ⟨200, none⟩

def net429NoHeader : Nat → Outcome := fun _ => .httpFail ⟨429, none⟩

def itemW8 : RawItem := ⟨"b.jpg".data, "P".data, "H".data, .str "500".data⟩

/-- C8: the retry loop reads `response.status_code` inside the `except`
branch, but when `requests.post` itself raised (connection error,
timeout) the local `response` was never bound, so the branch raises
`UnboundLocalError`: the call makes one attempt, sleeps zero times and
fails permanently even though the next attempt would have succeeded —
against both the code's own retry comments and the claim.  The remaining
conjuncts show the intended policy on response-bearing failures (fixed
2-second delay, `Retry-After` honoured on 429, fallback `4` without the
header, at most 3 attempts) and the scheduler boundary converting the
raised error into the sentinel item while the sibling completes. -/
theorem C8_retry_bug :
    send_api_request netConnFirst = (.error .unboundLocal, [], 1) ∧
    send_api_request netAll500 = (.error .maxRetries, [2, 2], 3) ∧
    send_api_request net429Once = (.ok ⟨200, none⟩, [7], 2) ∧
    send_api_request net429NoHeader = (.error .maxRetries, [4, 4], 3) ∧
    collect_results [("a.jpg".data, .error ()), ("b.jpg".data, .ok itemW8)]
      = [errRaw "a.jpg".data, itemW8] := by
  refine ⟨by decide, by decide, by decide, by decide, ?_⟩
  decide

/-! ## Claim C9: the detail CSV path -/

def csvExt : List Char := ".csv".data

def detailExt : List Char := "_detail.csv".data

/-- `output_csv_path.replace(".csv", "_detail.csv")` (line 354 / 255). -/
def detail_csv_path (p : List Char) : List Char := pyReplace csvExt detailExt p

/-- C9 (counterexample).  `str.replace` rewrites every occurrence of
`.csv` anywhere in the path, and does nothing when the path does not end
in `.csv`: for `results.txt` the detail path EQUALS the summary path
(the detail write then overwrites the summary), for `a.csv.csv` the
suffix is inserted twice, and a `.csv` inside a directory component is
rewritten too. -/
theorem C9_counterexample :
    detail_csv_path "results.txt".data = "results.txt".data ∧
    detail_csv_path "a.csv.csv".data = "a_detail.csv_detail.csv".data ∧
    detail_csv_path "dir.csv/out.csv".data = "dir_detail.csv/out_detail.csv".data := by
  refine ⟨by decide, by decide, ?_⟩
  decide

/-- C9 (amended).  The detail path replaces every occurrence of `.csv`
with `_detail.csv`: when `.csv` does not occur the two paths are EQUAL
(not distinct), and when the path is `q ++ ".csv"` with its first `.csv`
occurrence at the very end, the result is `q ++ "_detail.csv"` — the
`_detail` suffix before the extension — and the two paths are distinct. -/
theorem C9_amended (p q : List Char) :
    (findSubstr csvExt p = none → detail_csv_path p = p) ∧
    (findSubstr csvExt (q ++ csvExt) = some q.length →
      detail_csv_path (q ++ csvExt) = q ++ detailExt ∧
      detail_csv_path (q ++ csvExt) ≠ q ++ csvExt) := by
  constructor
  · intro h
    exact pyReplace_none (by decide) h
  · intro h
    have h1 : detail_csv_path (q ++ csvExt) = q ++ detailExt :=
      pyReplace_last (by decide) h
    refine ⟨h1, ?_⟩
    rw [h1]
    intro he
    have hlen := congrArg List.length he
    simp only [List.length_append] at hlen
    have : detailExt.length = csvExt.length := by omega
    revert this
    decide

/-- C9 (witness): the amended statement on a path with no `.csv` and on
`report.csv`. -/
theorem C9_witness :
    (findSubstr csvExt "noext".data = none ∧
      detail_csv_path "noext".data = "noext".data) ∧
    (findSubstr csvExt ("report".data ++ csvExt) = some ("report".data).length ∧
      detail_csv_path ("report".data ++ csvExt) = "report".data ++ detailExt ∧
      detail_csv_path ("report".data ++ csvExt) ≠ "report".data ++ csvExt) :=
  ⟨⟨by decide, (C9_amended "noext".data "report".data).1 (by decide)⟩,
    ⟨by decide, (C9_amended "noext".data "report".data).2 (by decide)⟩⟩

end Med

-- Quick sanity examples (concrete evaluations of the embedding).
example : Med.normalize_name "田中　太郎様".data = "田中太郎".data := by decide
example : Med.normalize_name "様様".data = "様".data := by decide
example : Med.normalize_name "様".data = [] := by decide
example : Med.normalize_name [] = Med.UNKNOWN := by decide
example : Med.normalize_name "田中様さん".data = "田中".data := by decide
example : Med.normalize_name "不明".data = Med.UNKNOWN := by decide
example : Med.findSubstr "ab".data "xxabyab".data = some 2 := by decide
example : Med.pyReplace ".csv".data "_detail.csv".data "out.csv".data = "out_detail.csv".data := by decide
example : Med.pyReplace ".csv".data "_detail.csv".data "out.txt".data = "out.txt".data := by decide
example : Med.pySplit "患者氏名:".data "患者氏名:A患者氏名:B\n".data = ["".data, "A".data, "B\n".data] := by decide
example : Med.splitFirstUnderscore "A_B_C".data = ("A".data, "B_C".data) := by decide
example : Med.convert_amount "3,000円".data = .int 3000 := by decide
example : Med.convert_amount "-500".data = .int (-500) := by decide
example : Med.convert_amount "N/A".data = .text "N/A".data := by decide
example : Med.extractJsonBlock "before ```json\ninner\n``` after".data = some "inner".data := by
  decide
example : Med.extractJsonBlock "no fence here".data = none := by decide
example :
    (Med.parseCore Med.jdFail "患者氏名: 田中様\n".data) =
      .ok ⟨"田中".data, Med.UNKNOWN, .str Med.UNKNOWN⟩ := by decide
example : (Med.claimFallback "患者氏名: 田中様\n".data).patient_name = "田中様".data := by decide
example :
    Med.send_api_request (fun n => if n = 0 then .connFail else .success ⟨200, none⟩) =
      (.error .unboundLocal, [], 1) := by decide
example :
    Med.send_api_request (fun _ => .httpFail ⟨500, none⟩) =
      (.error .maxRetries, [2, 2], 3) := by decide
example :
    Med.send_api_request (fun n => if n = 0 then .httpFail ⟨429, some 7⟩ else .success ⟨200, none⟩) =
      (.ok ⟨200, none⟩, [7], 2) := by decide
